import Mathlib

/-!
Shallow embedding of `src/main.py` (a Modrinth bulk version updater).

The script's pure core is `version_key` (a sort key for dotted/hyphenated
version labels) and the merge-and-sort expression
`sorted(list(set(current_game_versions + [target])), key=version_key)`.
The driver `main` iterates a configuration of projects, fetches each
project's releases, selects the releases whose `version_number` is
configured, and patches each selected release whose `game_versions` list
does not yet contain the target version.

Modelling decisions, each marked at its definition:
  * Python strings are Lean `String`s.  `str.isdigit` and `int()` are
    modelled exactly on the ASCII range, plus the superscript digits
    `¹ ² ³`, on which `isdigit()` is true while `int()` raises
    `ValueError` — so `version_key` is partial, as in CPython.  The full
    Unicode digit table is not embedded: theorems quantifying over
    arbitrary labels carry an all-ASCII hypothesis where this matters.
  * Python's `sorted` compares keys with `<`; comparing an `int` token with
    a `str` token raises `TypeError`.  The comparison is therefore partial:
    `Except Unit Ordering`, `.error ()` standing for `TypeError`.  The merge
    step returns `.error ()` when the pool of labels contains an
    incomparable pair of keys (CPython's Timsort raises on any list of two
    incomparable keys, which is what the refutation below evaluates).
  * `list(set(...))` has an unspecified iteration order in CPython; it is
    modelled as first-occurrence deduplication, a deterministic refinement.
  * Network effects are oracles: `rawFetch` gives each GET's outcome and
    `patchOk n` the outcome of the `n`-th PATCH call; stdout text is kept
    only where distinctness of messages matters (startup failures).
-/

def exceptDecEq {ε α : Type} [DecidableEq ε] [DecidableEq α] :
    (x y : Except ε α) → Decidable (x = y)
  | .error a, .error b =>
    if h : a = b then .isTrue (by rw [h]) else .isFalse (by simp [h])
  | .error _, .ok _ => .isFalse (by simp)
  | .ok _, .error _ => .isFalse (by simp)
  | .ok a, .ok b =>
    if h : a = b then .isTrue (by rw [h]) else .isFalse (by simp [h])

instance {ε α : Type} [DecidableEq ε] [DecidableEq α] : DecidableEq (Except ε α) :=
  exceptDecEq

/-- A sort-key token: `int(x)` for an all-digit token, the string otherwise
(`version_key` in `src/main.py:17-19`). -/
inductive Tok where
  | num : Nat → Tok
  | str : String → Tok
deriving DecidableEq

/-- `re.split(r'[.-]', v)` over the characters of `v`: split on every single
`.` or `-`, keeping empty tokens (so `""` splits to `[""]`). -/
def splitSeps (cs : List Char) : List (List Char) :=
  List.splitOnP (fun c => c = '.' || c = '-') cs

/-- `int(x)` for a string of decimal digits. -/
def digitsToNat (cs : List Char) : Nat :=
  cs.foldl (fun acc c => 10 * acc + (c.toNat - 48)) 0

/-- A character `int()` accepts as a decimal digit (Unicode `Nd`), with the
ASCII digits carrying their usual value.  Modelled exactly on the ASCII
range; the non-ASCII decimal digits (e.g. the Arabic-Indic ones) are not
embedded, so every general theorem below that needs this function to be
exact carries an all-ASCII hypothesis. -/
def pyCharDecimal (c : Char) : Bool :=
  c.isDigit

/-- A character `str.isdigit` accepts: the decimal digits plus the
digit-only characters (`Numeric_Type=Digit`).  The table embeds the
superscript digits one, two and three (U+00B9, U+00B2, U+00B3) — for these
CPython has `isdigit() = True` while `int()` raises `ValueError` — it is not
the full Unicode table, hence the all-ASCII hypothesis on general
theorems. -/
def pyCharDigit (c : Char) : Bool :=
  pyCharDecimal c || c == '¹' || c == '²' || c == '³'

/-- `int(x) if x.isdigit() else x` for one token: an `isdigit`-true token is
handed to `int()`, which succeeds exactly on decimal digits and raises
`ValueError` (modelled `.error ()`) on a digit-only character such as
`'²'`. -/
def coerceTok (cs : List Char) : Except Unit Tok :=
  if !cs.isEmpty && cs.all pyCharDigit then
    if cs.all pyCharDecimal then .ok (.num (digitsToNat cs))
    else .error ()
  else .ok (.str (String.mk cs))

/-- The list comprehension of `version_key`, left to right; the first
`ValueError` aborts it. -/
def keyTokens : List (List Char) → Except Unit (List Tok)
  | [] => .ok []
  | cs :: rest => do
    let t ← coerceTok cs
    let ts ← keyTokens rest
    pure (t :: ts)

/-- `version_key` (`src/main.py:17-19`):
`[int(x) if x.isdigit() else x for x in re.split(r'[.-]', v)]`.
Partial: `int(x)` raises `ValueError` on an `isdigit`-true token that is not
made of decimal digits (e.g. `"²"`). -/
def version_key (v : String) : Except Unit (List Tok) :=
  keyTokens (splitSeps v.toList)

/-- The computed sort key of `v`, defaulted on the `ValueError` path.  The
sort only ever runs after every key of the pool has been computed
successfully (Python's `sorted` decorates first), so under that guard `keyD`
is exactly the computed key and the default is never reached. -/
def keyD (v : String) : List Tok :=
  match version_key v with
  | .ok k => k
  | .error _ => []

/-- Every character of `v` is ASCII: on this domain `str.isdigit`, `int()`
and hence `version_key` are modelled exactly. -/
def AsciiStr (v : String) : Bool :=
  v.toList.all (fun c => c.toNat < 128)

/-- Modelled from the spec: one step of a right-to-left scan that splits on
literal `.` and `-` characters; any other character is prepended to the
current (leftmost) token. -/
def specScanStep (c : Char) (acc : List (List Char)) : List (List Char) :=
  if c = '.' ∨ c = '-' then [] :: acc
  else
    match acc with
    | [] => [[c]]
    | t :: ts => (c :: t) :: ts

/-- Modelled from the spec: "Splits the label on literal `.` and `-`
characters", written as a direct scan, independently of `List.splitOnP`. -/
def specSplit (v : String) : List (List Char) :=
  v.toList.foldr specScanStep [[]]

/-- Modelled from the spec: "each resulting token becomes an integer if it is
composed entirely of decimal digits, otherwise remains a string".  To be
compared with `version_key`. -/
def specVersionKey (v : String) : List Tok :=
  (specSplit v).map (fun cs =>
    if cs ≠ [] ∧ ∀ c ∈ cs, c.isDigit then .num (digitsToNat cs)
    else .str (String.mk cs))

/-- Python `int` comparison outcome. -/
def natCmp (a b : Nat) : Ordering :=
  if a < b then .lt else if b < a then .gt else .eq

/-- Python `str` comparison: lexicographic on code points. -/
def charListCmp : List Char → List Char → Ordering
  | [], [] => .eq
  | [], _ :: _ => .lt
  | _ :: _, [] => .gt
  | c :: cs, d :: ds =>
    if c < d then .lt else if d < c then .gt else charListCmp cs ds

def strCmp (a b : String) : Ordering :=
  charListCmp a.toList b.toList

/-- Python `==` between two sort-key tokens (`int == str` is `False`,
never an error). -/
def tokEq : Tok → Tok → Bool
  | .num a, .num b => a == b
  | .str a, .str b => a == b
  | _, _ => false

/-- Python `<` between two sort-key tokens; comparing an `int` with a `str`
raises `TypeError`, modelled as `.error ()`. -/
def tokCmp : Tok → Tok → Except Unit Ordering
  | .num a, .num b => .ok (natCmp a b)
  | .str a, .str b => .ok (strCmp a b)
  | _, _ => .error ()

/-- Python list comparison of two keys: find the first index whose tokens are
not `==`-equal and compare there with `<`; a list equal to a prefix of the
other is smaller. -/
def keyCmp : List Tok → List Tok → Except Unit Ordering
  | [], [] => .ok .eq
  | [], _ :: _ => .ok .lt
  | _ :: _, [] => .ok .gt
  | a :: as, b :: bs => if tokEq a b then keyCmp as bs else tokCmp a b

/-- The "stays before" test Python's stable ascending sort effects between an
earlier element `a` and a later element `b`: `a` stays before `b` unless
`key(b) < key(a)`.  Keys are read through `keyD`; the sort runs only after
decoration succeeded, where `keyD` is the computed key.  (On a `TypeError`
the surrounding merge has already failed, so the default branch is never
reached under the merge's guard.) -/
def vle (a b : String) : Bool :=
  match keyCmp (keyD b) (keyD a) with
  | .ok .lt => false
  | _ => true

/-- First-occurrence deduplication, keeping an accumulator of the labels
already emitted. -/
def dedupFirstAux (seen : List String) : List String → List String
  | [] => []
  | a :: l => if a ∈ seen then dedupFirstAux seen l
              else a :: dedupFirstAux (a :: seen) l

/-- First-occurrence deduplication: the model of `list(set(l))`
(CPython's set iteration order is unspecified; this fixes a deterministic
representative). -/
def dedupFirst (l : List String) : List String :=
  dedupFirstAux [] l

/-- Stable insertion of `a` in front of the first element it may stay
before. -/
def insertLe (le : String → String → Bool) (a : String) : List String → List String
  | [] => [a]
  | b :: l => if le a b then a :: b :: l else b :: insertLe le a l

/-- Stable insertion sort: the model of Python's `sorted` (Timsort is a
stable ascending sort, extensionally equal to stable insertion sort wherever
the key comparison is total). -/
def pySorted (le : String → String → Bool) : List String → List String
  | [] => []
  | a :: l => insertLe le a (pySorted le l)

/-- Every pair of labels in `l` has comparable version keys (no `TypeError`
when Python's sort compares them). -/
def pairwiseComparableB (l : List String) : Bool :=
  l.all fun a => l.all fun b => (keyCmp (keyD a) (keyD b)).isOk

/-- Every label of `l` has a computable version key (no `ValueError` while
Python's `sorted` decorates the pool with keys). -/
def poolKeysOk (l : List String) : Bool :=
  l.all fun v => (version_key v).isOk

/-- The merge-and-sort step (`src/main.py:116-119`):
`sorted(list(set(current_game_versions + [target_mc_version])), key=version_key)`.
`sorted` first computes every element's key (`.error ()` models the
`ValueError` from `int()` on a token like `"²"`), then sorts by comparing
keys (`.error ()` models the `TypeError` raised when an `int` token meets a
`str` token). -/
def mergeVersions (target : String) (cur : List String) : Except Unit (List String) :=
  if poolKeysOk (dedupFirst (cur ++ [target])) then
    if pairwiseComparableB (dedupFirst (cur ++ [target])) then
      .ok (pySorted vle (dedupFirst (cur ++ [target])))
    else .error ()
  else .error ()

/-- The labels `a` and `b` have comparable version keys (Python's `<` on the
two keys does not raise). -/
def OkPair (a b : String) : Prop :=
  (keyCmp (keyD a) (keyD b)).isOk = true

/-- One release record as the remote catalog returns it (the fields
`src/main.py:107-110` reads; `game_versions` defaults to `[]` there, so the
field is total). -/
structure Release where
  id : String
  name : String
  version_number : String
  game_versions : List String
deriving DecidableEq

/-- Running state of `main`'s loop: the `total_updated` counter, the PATCH
calls issued so far (release id, payload, outcome), and the project slugs
fetched so far. -/
structure LoopState where
  total : Nat
  calls : List (String × List String × Bool)
  fetches : List String
deriving DecidableEq

/-- The body of the inner loop of `main` (`src/main.py:106-127`) for one
selected release: skip when the target version is already supported,
otherwise merge, PATCH (the `n`-th PATCH call's outcome is `patchOk n`) and
count a success.  `.error ()` is the uncaught `TypeError` from the sort. -/
def stepRelease (target : String) (patchOk : Nat → Bool) (st : LoopState)
    (r : Release) : Except Unit LoopState :=
  if target ∈ r.game_versions then .ok st
  else
    match mergeVersions target r.game_versions with
    | .error e => .error e
    | .ok newList =>
      .ok { total := st.total + (if patchOk st.calls.length then 1 else 0),
            calls := st.calls ++ [(r.id, newList, patchOk st.calls.length)],
            fetches := st.fetches }

/-- `get_project_versions` (`src/main.py:46-55`): the raw GET outcome is the
oracle's; any `RequestException` (transport error or non-2xx, via
`raise_for_status`) is caught, logged and turned into `[]`. -/
def get_project_versions (raw : Except Unit (List Release)) : List Release :=
  match raw with
  | .ok rs => rs
  | .error _ => []

/-- The selection `src/main.py:99-101`:
`[v for v in all_mod_versions if v.get("version_number") in target_project_versions]`. -/
def selectReleases (labels : List String) (rs : List Release) : List Release :=
  rs.filter (fun r => r.version_number ∈ labels)

/-- One iteration of the outer loop of `main` (`src/main.py:92-128`): fetch
the project's releases (recording the GET), skip the project when none come
back, otherwise run the inner loop over the selected releases. -/
def stepProject (target : String) (rawFetch : String → Except Unit (List Release))
    (patchOk : Nat → Bool) (st : LoopState) (proj : String × List String) :
    Except Unit LoopState :=
  if get_project_versions (rawFetch proj.1) = [] then
    .ok { st with fetches := st.fetches ++ [proj.1] }
  else
    (selectReleases proj.2 (get_project_versions (rawFetch proj.1))).foldlM
      (stepRelease target patchOk) { st with fetches := st.fetches ++ [proj.1] }

/-- The whole per-project loop, from an arbitrary starting state. -/
def runProjectsFrom (target : String) (rawFetch : String → Except Unit (List Release))
    (patchOk : Nat → Bool) (st : LoopState) (projects : List (String × List String)) :
    Except Unit LoopState :=
  projects.foldlM (stepProject target rawFetch patchOk) st

/-- The two ways `load_config` (`src/main.py:32-42`) fails: the file is
missing, or its JSON does not parse. -/
inductive ConfigErr where
  | notFound : ConfigErr
  | badJson : ConfigErr
deriving DecidableEq

/-- What one run of `main` observably produces: the process exit code, the
decisive stdout line, the GETs issued, the PATCH calls issued (id, payload,
outcome) and the reported `total_updated`. -/
structure RunResult where
  exitCode : Nat
  message : String
  fetches : List String
  patches : List (String × List String × Bool)
  totalUpdated : Nat
deriving DecidableEq

def msgNoArg : String :=
  "❌ ERROR: Please provide the target Minecraft version as an argument."

def msgNoToken : String :=
  "❌ ERROR: MODRINTH_TOKEN environment variable not set."

def msgNoConfigFile : String :=
  "❌ ERROR: Configuration file 'main.json' not found."

def msgBadJson : String :=
  "❌ ERROR: Could not parse 'main.json'. Please check for JSON errors."

def msgEmptyConfig : String :=
  "ℹ️  No projects found in 'main.json' to update. Exiting."

def msgDone : String :=
  "✅ Done."

/-- A fatal startup exit: `sys.exit(1)` after the given error line, before
any network call. -/
def fatalRes (msg : String) : RunResult :=
  { exitCode := 1, message := msg, fetches := [], patches := [], totalUpdated := 0 }

/-- Python truthiness of `MODRINTH_TOKEN` read by `os.environ.get`
(`src/main.py:13,23`): falsy when unset or set to the empty string. -/
def tokenMissing : Option String → Bool
  | none => true
  | some s => s == ""

/-- The body of `main` from the empty-config check on
(`src/main.py:85-130`), given the target version already extracted from
`argv`. -/
def runMainLoop (target : String)
    (rawFetch : String → Except Unit (List Release)) (patchOk : Nat → Bool)
    (projects : List (String × List String)) : Except Unit RunResult :=
  if projects.isEmpty then
    .ok { exitCode := 0, message := msgEmptyConfig, fetches := [],
          patches := [], totalUpdated := 0 }
  else
    match runProjectsFrom target rawFetch patchOk ⟨0, [], []⟩ projects with
    | .error e => .error e
    | .ok st =>
      .ok { exitCode := 0, message := msgDone, fetches := st.fetches,
            patches := st.calls, totalUpdated := st.total }

/-- `main` (`src/main.py:71-130`), with the process environment and the
network abstracted: `argv` is `sys.argv` (program name first), `token` the
`MODRINTH_TOKEN` variable, `config` the outcome of reading `main.json` (its
object as an association list in iteration order), `rawFetch` each GET's
outcome and `patchOk n` the `n`-th PATCH call's outcome.  `.error ()` is an
uncaught `TypeError` from the merge's sort; every other path returns the run's
observable `RunResult`. -/
def runMain (argv : List String) (token : Option String)
    (config : Except ConfigErr (List (String × List String)))
    (rawFetch : String → Except Unit (List Release)) (patchOk : Nat → Bool) :
    Except Unit RunResult :=
  if argv.length < 2 then .ok (fatalRes msgNoArg)
  else if tokenMissing token then .ok (fatalRes msgNoToken)
  else
    match config with
    | .error .notFound => .ok (fatalRes msgNoConfigFile)
    | .error .badJson => .ok (fatalRes msgBadJson)
    | .ok projects => runMainLoop (argv.getD 1 "") rawFetch patchOk projects

/-- The updated-count invariant: `total_updated` equals the number of PATCH
calls so far that returned success. -/
def CountInv (st : LoopState) : Prop :=
  st.total = (st.calls.filter fun c => c.2.2).length

/-- The parts of the run visible to the outside that cannot depend on the
PATCH outcomes: which PATCH calls are issued (ids and payloads, in order) and
which GETs are issued. -/
def CallsAgree (s t : LoopState) : Prop :=
  s.calls.map (fun c => (c.1, c.2.1)) = t.calls.map (fun c => (c.1, c.2.1)) ∧
  s.fetches = t.fetches

/-! ### Properties of the key comparison -/

theorem tokEq_iff (a b : Tok) : tokEq a b = true ↔ a = b := by
  cases a <;> cases b <;> simp [tokEq]

theorem tokEq_refl (a : Tok) : tokEq a a = true := (tokEq_iff a a).mpr rfl

theorem tokEq_false_iff (a b : Tok) : tokEq a b = false ↔ a ≠ b := by
  constructor
  · intro h he
    rw [he, tokEq_refl] at h
    simp at h
  · intro h
    rcases hb : tokEq a b with _ | _
    · rfl
    · exact absurd ((tokEq_iff a b).mp hb) h

theorem tokEq_symm (a b : Tok) : tokEq a b = tokEq b a := by
  rcases h : tokEq a b with _ | _
  · rcases h' : tokEq b a with _ | _
    · rfl
    · exact absurd ((tokEq_iff b a).mp h').symm ((tokEq_false_iff a b).mp h)
  · exact ((tokEq_iff b a).mpr ((tokEq_iff a b).mp h).symm).symm

theorem natCmp_lt_iff (a b : Nat) : natCmp a b = .lt ↔ a < b := by
  unfold natCmp
  by_cases h : a < b
  · simp [h]
  · by_cases h2 : b < a <;> simp [h, h2]

theorem natCmp_eq_iff (a b : Nat) : natCmp a b = .eq ↔ a = b := by
  unfold natCmp
  by_cases h : a < b
  · simp [h]
    omega
  · by_cases h2 : b < a
    · simp [h, h2]
      omega
    · simp [h, h2]
      omega

theorem natCmp_swap (a b : Nat) : natCmp b a = (natCmp a b).swap := by
  unfold natCmp
  rcases Nat.lt_trichotomy a b with h | h | h
  · simp [h, Nat.lt_asymm h, Ordering.swap]
  · subst h
    simp [Nat.lt_irrefl, Ordering.swap]
  · simp [h, Nat.lt_asymm h, Ordering.swap]

theorem charListCmp_refl : ∀ l : List Char, charListCmp l l = .eq
  | [] => rfl
  | c :: l => by
    unfold charListCmp
    rw [if_neg (lt_irrefl c), if_neg (lt_irrefl c)]
    exact charListCmp_refl l

theorem charListCmp_eq_iff : ∀ l1 l2 : List Char, charListCmp l1 l2 = .eq ↔ l1 = l2
  | [], [] => by simp [charListCmp]
  | [], _ :: _ => by simp [charListCmp]
  | _ :: _, [] => by simp [charListCmp]
  | c :: l1, d :: l2 => by
    unfold charListCmp
    by_cases hcd : c < d
    · simp [hcd, ne_of_lt hcd]
    · by_cases hdc : d < c
      · simp [hcd, hdc, (ne_of_lt hdc).symm]
      · have hce : c = d := le_antisymm (not_lt.mp hdc) (not_lt.mp hcd)
        simp [hcd, hdc, hce, charListCmp_eq_iff l1 l2]

theorem charListCmp_swap : ∀ l1 l2 : List Char,
    charListCmp l2 l1 = (charListCmp l1 l2).swap
  | [], [] => rfl
  | [], _ :: _ => rfl
  | _ :: _, [] => rfl
  | c :: l1, d :: l2 => by
    unfold charListCmp
    by_cases hcd : c < d
    · simp [hcd, lt_asymm hcd, Ordering.swap]
    · by_cases hdc : d < c
      · simp [hcd, hdc, Ordering.swap]
      · simp [hcd, hdc, charListCmp_swap l1 l2]

theorem charListCmp_lt_trans : ∀ l1 l2 l3 : List Char,
    charListCmp l1 l2 = .lt → charListCmp l2 l3 = .lt → charListCmp l1 l3 = .lt
  | [], l2, l3, h1, h2 => by
    cases l2 with
    | nil => simp [charListCmp] at h1
    | cons b bs =>
      cases l3 with
      | nil => simp [charListCmp] at h2
      | cons c cs => simp [charListCmp]
  | a :: as, l2, l3, h1, h2 => by
    cases l2 with
    | nil => simp [charListCmp] at h1
    | cons b bs =>
      cases l3 with
      | nil => simp [charListCmp] at h2
      | cons c cs =>
        unfold charListCmp at h1 h2 ⊢
        by_cases hab : a < b
        · by_cases hbc : b < c
          · simp [lt_trans hab hbc]
          · by_cases hcb : c < b
            · simp [hbc, hcb] at h2
            · have hbe : b = c := le_antisymm (not_lt.mp hcb) (not_lt.mp hbc)
              subst hbe
              simp [hab]
        · by_cases hba : b < a
          · simp [hab, hba] at h1
          · have hae : a = b := le_antisymm (not_lt.mp hba) (not_lt.mp hab)
            subst hae
            by_cases hac : a < c
            · simp [hac]
            · by_cases hca : c < a
              · simp [hac, hca] at h2
              · simp [hab, hba] at h1
                simp [hac, hca] at h2 ⊢
                exact charListCmp_lt_trans as bs cs h1 h2

theorem string_toList_inj {a b : String} (h : a.toList = b.toList) : a = b := by
  cases a
  cases b
  exact congrArg String.mk h

theorem strCmp_eq_iff (a b : String) : strCmp a b = .eq ↔ a = b := by
  unfold strCmp
  rw [charListCmp_eq_iff]
  exact ⟨string_toList_inj, fun h => by rw [h]⟩

theorem strCmp_swap (a b : String) : strCmp b a = (strCmp a b).swap :=
  charListCmp_swap _ _

theorem strCmp_lt_trans {a b c : String} (h1 : strCmp a b = .lt)
    (h2 : strCmp b c = .lt) : strCmp a c = .lt :=
  charListCmp_lt_trans _ _ _ h1 h2

theorem tokCmp_refl (a : Tok) : tokCmp a a = .ok .eq := by
  cases a with
  | num n => exact congrArg Except.ok ((natCmp_eq_iff n n).mpr rfl)
  | str s => exact congrArg Except.ok ((strCmp_eq_iff s s).mpr rfl)

theorem tokCmp_eq_iff (a b : Tok) : tokCmp a b = .ok .eq ↔ a = b := by
  cases a <;> cases b <;> simp [tokCmp, natCmp_eq_iff, strCmp_eq_iff]

theorem tokCmp_swap (a b : Tok) :
    tokCmp b a = (tokCmp a b).map Ordering.swap := by
  cases a <;> cases b
  · exact congrArg Except.ok (natCmp_swap _ _)
  · rfl
  · rfl
  · exact congrArg Except.ok (strCmp_swap _ _)

theorem tokCmp_lt_trans : ∀ {a b c : Tok}, tokCmp a b = .ok .lt →
    tokCmp b c = .ok .lt → tokCmp a c = .ok .lt
  | .num a, .num b, .num c, h1, h2 => by
    simp only [tokCmp, Except.ok.injEq] at h1 h2
    exact congrArg Except.ok ((natCmp_lt_iff a c).mpr
      (Nat.lt_trans ((natCmp_lt_iff a b).mp h1) ((natCmp_lt_iff b c).mp h2)))
  | .str a, .str b, .str c, h1, h2 => by
    simp only [tokCmp, Except.ok.injEq] at h1 h2
    exact congrArg Except.ok (strCmp_lt_trans h1 h2)
  | .num _, .str _, _, h1, _ => by simp [tokCmp] at h1
  | .str _, .num _, _, h1, _ => by simp [tokCmp] at h1
  | .num _, .num _, .str _, _, h2 => by simp [tokCmp] at h2
  | .str _, .str _, .num _, _, h2 => by simp [tokCmp] at h2

theorem keyCmp_refl : ∀ k : List Tok, keyCmp k k = .ok .eq
  | [] => rfl
  | a :: k => by
    unfold keyCmp
    rw [if_pos (tokEq_refl a)]
    exact keyCmp_refl k

theorem keyCmp_swap : ∀ k1 k2 : List Tok,
    keyCmp k2 k1 = (keyCmp k1 k2).map Ordering.swap
  | [], [] => rfl
  | [], _ :: _ => rfl
  | _ :: _, [] => rfl
  | a :: as, b :: bs => by
    unfold keyCmp
    by_cases h : tokEq a b = true
    · rw [if_pos h, if_pos (by rw [tokEq_symm b a]; exact h)]
      exact keyCmp_swap as bs
    · rw [if_neg h, if_neg (by rw [tokEq_symm b a]; exact h)]
      exact tokCmp_swap a b

theorem keyCmp_eq_iff : ∀ k1 k2 : List Tok, keyCmp k1 k2 = .ok .eq ↔ k1 = k2
  | [], [] => by simp [keyCmp]
  | [], _ :: _ => by simp [keyCmp]
  | _ :: _, [] => by simp [keyCmp]
  | a :: as, b :: bs => by
    unfold keyCmp
    by_cases h : tokEq a b = true
    · have heq : a = b := (tokEq_iff a b).mp h
      rw [if_pos h]
      simp [heq, keyCmp_eq_iff as bs]
    · have hne : a ≠ b := (tokEq_false_iff a b).mp (Bool.not_eq_true _ ▸ h)
      rw [if_neg h]
      simp [tokCmp_eq_iff, hne]

theorem keyCmp_lt_trans : ∀ k1 k2 k3 : List Tok, keyCmp k1 k2 = .ok .lt →
    keyCmp k2 k3 = .ok .lt → keyCmp k1 k3 = .ok .lt
  | [], k2, k3, h1, h2 => by
    cases k2 with
    | nil => simp [keyCmp] at h1
    | cons b bs =>
      cases k3 with
      | nil => simp [keyCmp] at h2
      | cons c cs => simp [keyCmp]
  | a :: as, k2, k3, h1, h2 => by
    cases k2 with
    | nil => simp [keyCmp] at h1
    | cons b bs =>
      cases k3 with
      | nil => simp [keyCmp] at h2
      | cons c cs =>
        unfold keyCmp at h1 h2 ⊢
        by_cases hab : tokEq a b = true
        · have heq : a = b := (tokEq_iff a b).mp hab
          subst heq
          rw [if_pos hab] at h1
          by_cases hac : tokEq a c = true
          · have heq2 : a = c := (tokEq_iff a c).mp hac
            subst heq2
            rw [if_pos hac] at h2
            rw [if_pos hac]
            exact keyCmp_lt_trans as bs cs h1 h2
          · rw [if_neg hac] at h2
            rw [if_neg hac]
            exact h2
        · rw [if_neg hab] at h1
          by_cases hbc : tokEq b c = true
          · have heq : b = c := (tokEq_iff b c).mp hbc
            subst heq
            rw [if_neg hab]
            exact h1
          · rw [if_neg hbc] at h2
            have hlt := tokCmp_lt_trans h1 h2
            have hac : ¬ tokEq a c = true := by
              intro hc
              have : a = c := (tokEq_iff a c).mp hc
              rw [this, tokCmp_refl] at hlt
              simp at hlt
            rw [if_neg hac]
            exact hlt

/-! ### The stable-sort relation `vle` -/

theorem vle_false_iff (a b : String) :
    vle a b = false ↔ keyCmp (keyD b) (keyD a) = .ok .lt := by
  unfold vle
  rcases h : keyCmp (keyD b) (keyD a) with e | o
  · simp
  · cases o <;> simp

theorem vle_total (a b : String) : vle a b = true ∨ vle b a = true := by
  rcases h1 : vle a b with _ | _
  · rcases h2 : vle b a with _ | _
    · have hlt1 := (vle_false_iff a b).mp h1
      have hlt2 := (vle_false_iff b a).mp h2
      have h3 := keyCmp_lt_trans _ _ _ hlt1 hlt2
      rw [keyCmp_refl] at h3
      simp at h3
    · exact Or.inr rfl
  · exact Or.inl rfl

theorem vle_true_of_not_lt {a c : String}
    (h : ¬ keyCmp (keyD c) (keyD a) = .ok .lt) : vle a c = true := by
  rcases hv : vle a c with _ | _
  · exact absurd ((vle_false_iff a c).mp hv) h
  · rfl

theorem isOk_map_swap (x : Except Unit Ordering) :
    (x.map Ordering.swap).isOk = x.isOk := by
  cases x <;> rfl

theorem okPair_symm {a b : String} (h : OkPair a b) : OkPair b a := by
  unfold OkPair at h ⊢
  rw [keyCmp_swap, isOk_map_swap]
  exact h

theorem vle_true_le {a b : String} (hab : OkPair a b) (h : vle a b = true) :
    keyCmp (keyD a) (keyD b) = .ok .lt ∨
      keyD a = keyD b := by
  unfold OkPair at hab
  rcases hk : keyCmp (keyD a) (keyD b) with e | o
  · rw [hk] at hab
    simp [Except.isOk, Except.toBool] at hab
  · cases o with
    | lt => exact Or.inl rfl
    | eq => exact Or.inr ((keyCmp_eq_iff _ _).mp hk)
    | gt =>
      exfalso
      have hsw : keyCmp (keyD b) (keyD a) = .ok .lt := by
        rw [keyCmp_swap, hk]
        rfl
      have : vle a b = false := (vle_false_iff a b).mpr hsw
      rw [this] at h
      cases h

theorem vle_trans {a b c : String} (hab : OkPair a b) (hbc : OkPair b c)
    (h1 : vle a b = true) (h2 : vle b c = true) : vle a c = true := by
  have le1 := vle_true_le hab h1
  have le2 := vle_true_le hbc h2
  apply vle_true_of_not_lt
  intro hca
  rcases le1 with hlt1 | heq1
  · rcases le2 with hlt2 | heq2
    · have h3 := keyCmp_lt_trans _ _ _ hlt1 hlt2
      have h4 := keyCmp_lt_trans _ _ _ h3 hca
      rw [keyCmp_refl] at h4
      simp at h4
    · rw [heq2] at hlt1
      have h4 := keyCmp_lt_trans _ _ _ hlt1 hca
      rw [keyCmp_refl] at h4
      simp at h4
  · rw [heq1] at hca
    rcases le2 with hlt2 | heq2
    · have h4 := keyCmp_lt_trans _ _ _ hca hlt2
      rw [keyCmp_refl] at h4
      simp at h4
    · rw [heq2] at hca
      rw [keyCmp_refl] at hca
      simp at hca

/-! ### The insertion sort modelling `sorted` -/

theorem insertLe_perm (le : String → String → Bool) (a : String) :
    ∀ l, List.Perm (insertLe le a l) (a :: l)
  | [] => List.Perm.refl _
  | b :: l => by
    unfold insertLe
    by_cases h : le a b = true
    · rw [if_pos h]
    · rw [if_neg h]
      exact (List.Perm.cons b (insertLe_perm le a l)).trans (List.Perm.swap a b l)

theorem pySorted_perm (le : String → String → Bool) : ∀ l, List.Perm (pySorted le l) l
  | [] => List.Perm.refl _
  | a :: l => (insertLe_perm le a _).trans (List.Perm.cons a (pySorted_perm le l))

theorem insertLe_pairwise (a : String) : ∀ l : List String,
    l.Pairwise (fun x y => vle x y = true) →
    (∀ x ∈ l, OkPair a x) →
    (∀ x ∈ l, ∀ y ∈ l, OkPair x y) →
    (insertLe vle a l).Pairwise (fun x y => vle x y = true)
  | [], _, _, _ => by simp [insertLe]
  | b :: l, hp, hcompa, hcompl => by
    have hb : ∀ y ∈ l, vle b y = true := (List.pairwise_cons.mp hp).1
    have hp' : l.Pairwise (fun x y => vle x y = true) := (List.pairwise_cons.mp hp).2
    unfold insertLe
    by_cases h : vle a b = true
    · rw [if_pos h]
      refine List.Pairwise.cons ?_ hp
      intro x hx
      rcases List.mem_cons.mp hx with rfl | hx
      · exact h
      · exact vle_trans (hcompa b (List.mem_cons_self b l))
          (hcompl b (List.mem_cons_self b l) x (List.mem_cons_of_mem b hx)) h (hb x hx)
    · rw [if_neg h]
      refine List.Pairwise.cons ?_ ?_
      · intro x hx
        have hx' := (insertLe_perm vle a l).mem_iff.mp hx
        rcases List.mem_cons.mp hx' with rfl | hx'
        · rcases vle_total x b with h1 | h1
          · exact absurd h1 h
          · exact h1
        · exact hb x hx'
      · exact insertLe_pairwise a l hp'
          (fun x hx => hcompa x (List.mem_cons_of_mem b hx))
          (fun x hx y hy =>
            hcompl x (List.mem_cons_of_mem b hx) y (List.mem_cons_of_mem b hy))

theorem pySorted_pairwise : ∀ l : List String,
    (∀ x ∈ l, ∀ y ∈ l, OkPair x y) →
    (pySorted vle l).Pairwise (fun x y => vle x y = true)
  | [], _ => List.Pairwise.nil
  | a :: l, hcomp => by
    unfold pySorted
    have hmem : ∀ x, x ∈ pySorted vle l → x ∈ l :=
      fun x hx => (pySorted_perm vle l).mem_iff.mp hx
    refine insertLe_pairwise a (pySorted vle l) ?_ ?_ ?_
    · exact pySorted_pairwise l
        (fun x hx y hy => hcomp x (List.mem_cons_of_mem a hx) y (List.mem_cons_of_mem a hy))
    · exact fun x hx => hcomp a (List.mem_cons_self a l) x (List.mem_cons_of_mem a (hmem x hx))
    · exact fun x hx y hy => hcomp x (List.mem_cons_of_mem a (hmem x hx))
        y (List.mem_cons_of_mem a (hmem y hy))

theorem insertLe_of_head (a : String) : ∀ l : List String,
    (∀ x ∈ l, vle a x = true) → insertLe vle a l = a :: l
  | [], _ => rfl
  | b :: l, h => by
    unfold insertLe
    rw [if_pos (h b (List.mem_cons_self b l))]

theorem pySorted_of_pairwise : ∀ l : List String,
    l.Pairwise (fun x y => vle x y = true) → pySorted vle l = l
  | [], _ => rfl
  | a :: l, hp => by
    unfold pySorted
    rw [pySorted_of_pairwise l (List.pairwise_cons.mp hp).2]
    exact insertLe_of_head a l (List.pairwise_cons.mp hp).1

/-! ### First-occurrence deduplication -/

theorem mem_dedupFirstAux (x : String) : ∀ (seen l : List String),
    x ∈ dedupFirstAux seen l ↔ x ∈ l ∧ x ∉ seen
  | seen, [] => by simp [dedupFirstAux]
  | seen, a :: l => by
    unfold dedupFirstAux
    by_cases h : a ∈ seen
    · rw [if_pos h, mem_dedupFirstAux x seen l]
      constructor
      · rintro ⟨hl, hs⟩
        exact ⟨List.mem_cons_of_mem a hl, hs⟩
      · rintro ⟨hl, hs⟩
        rcases List.mem_cons.mp hl with rfl | hl
        · exact absurd h hs
        · exact ⟨hl, hs⟩
    · rw [if_neg h]
      simp only [List.mem_cons, mem_dedupFirstAux x (a :: seen) l]
      constructor
      · rintro (rfl | ⟨hl, hs⟩)
        · exact ⟨Or.inl rfl, h⟩
        · exact ⟨Or.inr hl, fun hx => hs (Or.inr hx)⟩
      · rintro ⟨rfl | hl, hs⟩
        · exact Or.inl rfl
        · by_cases hxa : x = a
          · exact Or.inl hxa
          · refine Or.inr ⟨hl, fun hx => ?_⟩
            rcases hx with h1 | h1
            · exact hxa h1
            · exact hs h1

theorem nodup_dedupFirstAux : ∀ (seen l : List String), (dedupFirstAux seen l).Nodup
  | _, [] => List.Pairwise.nil
  | seen, a :: l => by
    unfold dedupFirstAux
    by_cases h : a ∈ seen
    · rw [if_pos h]
      exact nodup_dedupFirstAux seen l
    · rw [if_neg h]
      refine List.Pairwise.cons ?_ (nodup_dedupFirstAux (a :: seen) l)
      intro x hx hax
      have hm := (mem_dedupFirstAux x (a :: seen) l).mp hx
      exact hm.2 (by rw [← hax]; exact List.mem_cons_self a seen)

theorem dedupFirstAux_eq_self : ∀ (seen l : List String), l.Nodup →
    (∀ x ∈ l, x ∉ seen) → dedupFirstAux seen l = l
  | _, [], _, _ => rfl
  | seen, a :: l, hnd, hs => by
    unfold dedupFirstAux
    rw [if_neg (hs a (List.mem_cons_self a l))]
    congr 1
    refine dedupFirstAux_eq_self (a :: seen) l (List.nodup_cons.mp hnd).2 ?_
    intro x hx hmem
    rcases List.mem_cons.mp hmem with rfl | h2
    · exact (List.nodup_cons.mp hnd).1 hx
    · exact hs x (List.mem_cons_of_mem a hx) h2

theorem dedupFirstAux_append_mem : ∀ (seen l : List String) (t : String),
    t ∈ l ∨ t ∈ seen → dedupFirstAux seen (l ++ [t]) = dedupFirstAux seen l
  | seen, [], t, h => by
    rcases h with h | h
    · simp at h
    · simp [dedupFirstAux, h]
  | seen, a :: l, t, h => by
    rw [List.cons_append]
    unfold dedupFirstAux
    by_cases ha : a ∈ seen
    · rw [if_pos ha, if_pos ha]
      refine dedupFirstAux_append_mem seen l t ?_
      rcases h with h | h
      · rcases List.mem_cons.mp h with rfl | h
        · exact Or.inr ha
        · exact Or.inl h
      · exact Or.inr h
    · rw [if_neg ha, if_neg ha]
      congr 1
      refine dedupFirstAux_append_mem (a :: seen) l t ?_
      rcases h with h | h
      · rcases List.mem_cons.mp h with rfl | h
        · exact Or.inr (List.mem_cons_self t seen)
        · exact Or.inl h
      · exact Or.inr (List.mem_cons_of_mem a h)

theorem mem_dedupFirst {x : String} {l : List String} :
    x ∈ dedupFirst l ↔ x ∈ l := by
  rw [dedupFirst, mem_dedupFirstAux]
  simp

theorem nodup_dedupFirst (l : List String) : (dedupFirst l).Nodup :=
  nodup_dedupFirstAux [] l

theorem dedupFirst_eq_self {l : List String} (h : l.Nodup) : dedupFirst l = l :=
  dedupFirstAux_eq_self [] l h (by simp)

theorem dedupFirst_append_mem {l : List String} {t : String} (h : t ∈ l) :
    dedupFirst (l ++ [t]) = dedupFirst l :=
  dedupFirstAux_append_mem [] l t (Or.inl h)

/-! ### The merge-and-sort step -/

theorem pairwiseComparable_iff (l : List String) :
    pairwiseComparableB l = true ↔ ∀ x ∈ l, ∀ y ∈ l, OkPair x y := by
  unfold pairwiseComparableB OkPair
  simp [List.all_eq_true]

theorem poolKeysOk_iff (l : List String) :
    poolKeysOk l = true ↔ ∀ v ∈ l, (version_key v).isOk = true := by
  unfold poolKeysOk
  simp [List.all_eq_true]

theorem mergeVersions_ok {target : String} {cur M : List String}
    (h : mergeVersions target cur = .ok M) :
    List.Perm M (dedupFirst (cur ++ [target])) ∧
      pairwiseComparableB (dedupFirst (cur ++ [target])) = true ∧
      poolKeysOk (dedupFirst (cur ++ [target])) = true := by
  unfold mergeVersions at h
  by_cases hk : poolKeysOk (dedupFirst (cur ++ [target])) = true
  · rw [if_pos hk] at h
    by_cases hg : pairwiseComparableB (dedupFirst (cur ++ [target])) = true
    · rw [if_pos hg] at h
      refine ⟨?_, hg, hk⟩
      rw [← Except.ok.inj h]
      exact pySorted_perm vle _
    · rw [if_neg hg] at h
      cases h
  · rw [if_neg hk] at h
    cases h

theorem mergeVersions_mem_target {target : String} {cur M : List String}
    (h : mergeVersions target cur = .ok M) : target ∈ M := by
  have hperm := (mergeVersions_ok h).1
  rw [hperm.mem_iff, mem_dedupFirst]
  exact List.mem_append_right cur (List.mem_cons_self target [])

theorem mergeVersions_superset {target : String} {cur M : List String}
    (h : mergeVersions target cur = .ok M) : ∀ v ∈ cur, v ∈ M := by
  intro v hv
  have hperm := (mergeVersions_ok h).1
  rw [hperm.mem_iff, mem_dedupFirst]
  exact List.mem_append_left [target] hv

theorem mergeVersions_nodup {target : String} {cur M : List String}
    (h : mergeVersions target cur = .ok M) : M.Nodup :=
  ((mergeVersions_ok h).1.nodup_iff).mpr (nodup_dedupFirst _)

theorem mergeVersions_count_target {target : String} {cur M : List String}
    (h : mergeVersions target cur = .ok M) : M.count target = 1 :=
  List.count_eq_one_of_mem (mergeVersions_nodup h) (mergeVersions_mem_target h)

theorem mergeVersions_comp {target : String} {cur M : List String}
    (h : mergeVersions target cur = .ok M) : ∀ x ∈ M, ∀ y ∈ M, OkPair x y := by
  have hperm := (mergeVersions_ok h).1
  have hg := (pairwiseComparable_iff _).mp (mergeVersions_ok h).2.1
  intro x hx y hy
  exact hg x (hperm.mem_iff.mp hx) y (hperm.mem_iff.mp hy)

theorem mergeVersions_keysOk {target : String} {cur M : List String}
    (h : mergeVersions target cur = .ok M) :
    ∀ v ∈ M, (version_key v).isOk = true := by
  have hperm := (mergeVersions_ok h).1
  have hk := (poolKeysOk_iff _).mp (mergeVersions_ok h).2.2
  intro v hv
  exact hk v (hperm.mem_iff.mp hv)

theorem mergeVersions_sorted {target : String} {cur M : List String}
    (h : mergeVersions target cur = .ok M) :
    M.Pairwise (fun x y => vle x y = true) := by
  unfold mergeVersions at h
  by_cases hk : poolKeysOk (dedupFirst (cur ++ [target])) = true
  · rw [if_pos hk] at h
    by_cases hg : pairwiseComparableB (dedupFirst (cur ++ [target])) = true
    · rw [if_pos hg] at h
      rw [← Except.ok.inj h]
      exact pySorted_pairwise _ ((pairwiseComparable_iff _).mp hg)
    · rw [if_neg hg] at h
      cases h
  · rw [if_neg hk] at h
    cases h

theorem mergeVersions_idem_aux {target : String} {cur M : List String}
    (h : mergeVersions target cur = .ok M) : mergeVersions target M = .ok M := by
  have hmem : target ∈ M := mergeVersions_mem_target h
  have hnd : M.Nodup := mergeVersions_nodup h
  have hpool : dedupFirst (M ++ [target]) = M := by
    rw [dedupFirst_append_mem hmem, dedupFirst_eq_self hnd]
  unfold mergeVersions
  rw [hpool]
  rw [if_pos ((poolKeysOk_iff M).mpr (mergeVersions_keysOk h))]
  rw [if_pos ((pairwiseComparable_iff M).mpr (mergeVersions_comp h))]
  rw [pySorted_of_pairwise M (mergeVersions_sorted h)]

/-! ### `version_key` agrees with the spec's description -/

theorem splitSeps_cons (c : Char) (cs : List Char) :
    splitSeps (c :: cs) =
      if c = '.' ∨ c = '-' then [] :: splitSeps cs
      else (splitSeps cs).modifyHead (List.cons c) := by
  unfold splitSeps
  rw [List.splitOnP_cons]
  by_cases h : c = '.' ∨ c = '-'
  · rw [if_pos h, if_pos]
    rcases h with h | h <;> simp [h]
  · rw [if_neg h, if_neg]
    simp only [not_or] at h
    simp [h.1, h.2]

theorem splitSeps_ne_nil (cs : List Char) : splitSeps cs ≠ [] :=
  List.splitOnP_ne_nil _ cs

theorem splitSeps_eq_scan : ∀ cs : List Char,
    splitSeps cs = cs.foldr specScanStep [[]]
  | [] => rfl
  | c :: cs => by
    rw [List.foldr_cons, ← splitSeps_eq_scan cs, splitSeps_cons]
    unfold specScanStep
    by_cases h : c = '.' ∨ c = '-'
    · rw [if_pos h, if_pos h]
    · rw [if_neg h, if_neg h]
      rcases he : splitSeps cs with _ | ⟨t, ts⟩
      · exact absurd he (splitSeps_ne_nil cs)
      · rfl

theorem all_congr_of_mem {p q : Char → Bool} : ∀ cs : List Char,
    (∀ c ∈ cs, p c = q c) → cs.all p = cs.all q
  | [], _ => rfl
  | c :: cs, h => by
    simp only [List.all_cons]
    rw [h c (List.mem_cons_self c cs),
      all_congr_of_mem cs (fun d hd => h d (List.mem_cons_of_mem c hd))]

theorem pyCharDigit_ascii {c : Char} (h : c.toNat < 128) :
    pyCharDigit c = pyCharDecimal c := by
  unfold pyCharDigit
  have h1 : (c == '¹') = false := by
    rcases hb : c == '¹' with _ | _
    · rfl
    · rw [eq_of_beq hb] at h
      exact absurd h (by decide)
  have h2 : (c == '²') = false := by
    rcases hb : c == '²' with _ | _
    · rfl
    · rw [eq_of_beq hb] at h
      exact absurd h (by decide)
  have h3 : (c == '³') = false := by
    rcases hb : c == '³' with _ | _
    · rfl
    · rw [eq_of_beq hb] at h
      exact absurd h (by decide)
  rw [h1, h2, h3]
  simp

/-- On an all-ASCII token, `isdigit`, `int()` and the spec's decimal-digit
coercion coincide, and no `ValueError` is possible. -/
theorem coerceTok_ascii (cs : List Char) (h : ∀ c ∈ cs, c.toNat < 128) :
    coerceTok cs =
      .ok (if cs ≠ [] ∧ ∀ c ∈ cs, c.isDigit then Tok.num (digitsToNat cs)
           else Tok.str (String.mk cs)) := by
  have hdg : cs.all pyCharDigit = cs.all pyCharDecimal :=
    all_congr_of_mem cs (fun c hc => pyCharDigit_ascii (h c hc))
  have hBiff : cs.all pyCharDecimal = true ↔ ∀ c ∈ cs, c.isDigit := by
    simp [List.all_eq_true, pyCharDecimal]
  unfold coerceTok
  by_cases hc : cs ≠ [] ∧ ∀ c ∈ cs, c.isDigit
  · have hB : cs.all pyCharDecimal = true := hBiff.mpr hc.2
    have hA : (!cs.isEmpty && cs.all pyCharDigit) = true := by
      rw [hdg]
      simp only [Bool.and_eq_true, Bool.not_eq_true']
      exact ⟨by simpa using hc.1, hB⟩
    rw [if_pos hA, if_pos hB, if_pos hc]
  · have hA : ¬ (!cs.isEmpty && cs.all pyCharDigit) = true := by
      rw [hdg]
      simp only [Bool.and_eq_true, Bool.not_eq_true']
      intro hAnd
      exact hc ⟨by simpa using hAnd.1, hBiff.mp hAnd.2⟩
    rw [if_neg hA, if_neg hc]

/-- Every character of a token of `splitSeps cs` is a character of `cs`. -/
theorem splitSeps_chars : ∀ (cs t : List Char), t ∈ splitSeps cs → ∀ c ∈ t, c ∈ cs
  | [], t, ht, c, hc => by
    have hts : splitSeps [] = [[]] := rfl
    rw [hts] at ht
    rcases List.mem_cons.mp ht with rfl | ht
    · simp at hc
    · simp at ht
  | d :: cs, t, ht, c, hc => by
    rw [splitSeps_cons] at ht
    by_cases hsep : d = '.' ∨ d = '-'
    · rw [if_pos hsep] at ht
      rcases List.mem_cons.mp ht with rfl | ht
      · simp at hc
      · exact List.mem_cons_of_mem d (splitSeps_chars cs t ht c hc)
    · rw [if_neg hsep] at ht
      rcases he : splitSeps cs with _ | ⟨t0, ts⟩
      · exact absurd he (splitSeps_ne_nil cs)
      · rw [he] at ht
        rcases List.mem_cons.mp ht with rfl | ht
        · rcases List.mem_cons.mp hc with rfl | hc
          · exact List.mem_cons_self c cs
          · refine List.mem_cons_of_mem d (splitSeps_chars cs t0 ?_ c hc)
            rw [he]
            exact List.mem_cons_self t0 ts
        · refine List.mem_cons_of_mem d (splitSeps_chars cs t ?_ c hc)
          rw [he]
          exact List.mem_cons_of_mem t0 ht

theorem keyTokens_map (g : List Char → Tok) : ∀ l : List (List Char),
    (∀ cs ∈ l, coerceTok cs = .ok (g cs)) → keyTokens l = .ok (l.map g)
  | [], _ => rfl
  | cs :: l, h => by
    unfold keyTokens
    rw [h cs (List.mem_cons_self cs l)]
    show (keyTokens l >>= fun ts => pure (g cs :: ts)) = .ok ((cs :: l).map g)
    rw [keyTokens_map g l (fun u hu => h u (List.mem_cons_of_mem cs hu))]
    rfl

theorem version_key_ok_of_ascii {v : String} (h : AsciiStr v = true) :
    version_key v = .ok ((splitSeps v.toList).map (fun cs =>
      if cs ≠ [] ∧ ∀ c ∈ cs, c.isDigit then Tok.num (digitsToNat cs)
      else Tok.str (String.mk cs))) := by
  have hv : ∀ c ∈ v.toList, c.toNat < 128 := by
    simpa [AsciiStr, List.all_eq_true] using h
  unfold version_key
  apply keyTokens_map
  intro cs hcs
  apply coerceTok_ascii
  intro c hc
  exact hv c (splitSeps_chars v.toList cs hcs c hc)

theorem mergeVersions_isOk_of_ascii {target : String} {cur : List String}
    (hta : AsciiStr target = true) (hcur : ∀ v ∈ cur, AsciiStr v = true)
    (hcomp : pairwiseComparableB (dedupFirst (cur ++ [target])) = true) :
    (mergeVersions target cur).isOk = true := by
  have hpool : ∀ v ∈ dedupFirst (cur ++ [target]), (version_key v).isOk = true := by
    intro v hv
    rcases List.mem_append.mp (mem_dedupFirst.mp hv) with hv | hv
    · rw [version_key_ok_of_ascii (hcur v hv)]
      rfl
    · have hvt : v = target := by simpa using hv
      rw [hvt, version_key_ok_of_ascii hta]
      rfl
  unfold mergeVersions
  rw [if_pos ((poolKeysOk_iff _).mpr hpool), if_pos hcomp]
  rfl

/-! ### Generic facts about `foldlM` over `Except` -/

theorem foldlM_except_inv {σ α : Type} (P : σ → Prop) (f : σ → α → Except Unit σ)
    (hf : ∀ s a s', P s → f s a = .ok s' → P s') :
    ∀ (l : List α) (s s' : σ), P s → l.foldlM f s = .ok s' → P s'
  | [], s, s', hP, h => by
    simp only [List.foldlM_nil] at h
    rw [← Except.ok.inj h]
    exact hP
  | a :: l, s, s', hP, h => by
    rw [List.foldlM_cons] at h
    rcases hf' : f s a with e | s1
    · rw [hf'] at h
      cases h
    · rw [hf'] at h
      exact foldlM_except_inv P f hf l s1 s' (hf s a s1 hP hf') h

theorem foldlM_except_ok {σ α : Type} (f : σ → α → Except Unit σ) :
    ∀ (l : List α) (s : σ), (∀ s a, a ∈ l → ∃ s', f s a = .ok s') →
      ∃ s', l.foldlM f s = .ok s'
  | [], s, _ => ⟨s, rfl⟩
  | a :: l, s, hf => by
    obtain ⟨s1, hs1⟩ := hf s a (List.mem_cons_self a l)
    obtain ⟨s', hs'⟩ := foldlM_except_ok f l s1
      (fun t b hb => hf t b (List.mem_cons_of_mem a hb))
    exact ⟨s', by rw [List.foldlM_cons, hs1]; exact hs'⟩

theorem foldlM_except_rel {σ α : Type} (R : σ → σ → Prop)
    (f g : σ → α → Except Unit σ)
    (hfg : ∀ s t a, R s t →
      (f s a = .error () ∧ g t a = .error ()) ∨
      (∃ s' t', f s a = .ok s' ∧ g t a = .ok t' ∧ R s' t')) :
    ∀ (l : List α) (s t : σ), R s t →
      (l.foldlM f s = .error () ∧ l.foldlM g t = .error ()) ∨
      (∃ s' t', l.foldlM f s = .ok s' ∧ l.foldlM g t = .ok t' ∧ R s' t')
  | [], s, t, hR => by
    right
    exact ⟨s, t, rfl, rfl, hR⟩
  | a :: l, s, t, hR => by
    rcases hfg s t a hR with ⟨h1, h2⟩ | ⟨s1, t1, h1, h2, hR1⟩
    · left
      constructor <;> rw [List.foldlM_cons]
      · rw [h1]; rfl
      · rw [h2]; rfl
    · rcases foldlM_except_rel R f g hfg l s1 t1 hR1 with ⟨h3, h4⟩ | ⟨s', t', h3, h4, hR'⟩
      · left
        constructor <;> rw [List.foldlM_cons]
        · rw [h1]; exact h3
        · rw [h2]; exact h4
      · right
        refine ⟨s', t', ?_, ?_, hR'⟩
        · rw [List.foldlM_cons, h1]; exact h3
        · rw [List.foldlM_cons, h2]; exact h4

/-! ### The driver's loop invariants -/

theorem stepRelease_count_inv (target : String) (patchOk : Nat → Bool)
    {st st' : LoopState} {r : Release} (hP : CountInv st)
    (h : stepRelease target patchOk st r = .ok st') : CountInv st' := by
  unfold stepRelease at h
  by_cases hmem : target ∈ r.game_versions
  · rw [if_pos hmem] at h
    rw [← Except.ok.inj h]
    exact hP
  · rw [if_neg hmem] at h
    rcases hm : mergeVersions target r.game_versions with e | newList
    · rw [hm] at h
      cases h
    · rw [hm] at h
      rw [← Except.ok.inj h]
      unfold CountInv at hP ⊢
      simp only [List.filter_append, List.length_append]
      rcases hpo : patchOk st.calls.length with _ | _
      · simp [hP, hpo]
      · simp [hP, hpo]

theorem stepProject_count_inv (target : String)
    (rawFetch : String → Except Unit (List Release)) (patchOk : Nat → Bool)
    {st st' : LoopState} {proj : String × List String} (hP : CountInv st)
    (h : stepProject target rawFetch patchOk st proj = .ok st') : CountInv st' := by
  unfold stepProject at h
  have hP1 : CountInv { st with fetches := st.fetches ++ [proj.1] } := hP
  by_cases hrs : get_project_versions (rawFetch proj.1) = []
  · rw [if_pos hrs] at h
    rw [← Except.ok.inj h]
    exact hP1
  · rw [if_neg hrs] at h
    exact foldlM_except_inv CountInv (stepRelease target patchOk)
      (fun _ _ _ hs ha => stepRelease_count_inv target patchOk hs ha)
      _ _ _ hP1 h

theorem runProjectsFrom_count_inv (target : String)
    (rawFetch : String → Except Unit (List Release)) (patchOk : Nat → Bool)
    {st st' : LoopState} {projects : List (String × List String)} (hP : CountInv st)
    (h : runProjectsFrom target rawFetch patchOk st projects = .ok st') :
    CountInv st' :=
  foldlM_except_inv CountInv (stepProject target rawFetch patchOk)
    (fun _ _ _ hs ha => stepProject_count_inv target rawFetch patchOk hs ha)
    projects st st' hP h

theorem stepRelease_patch_eq (target : String) (patchOk : Nat → Bool)
    (st : LoopState) (r : Release) (newList : List String)
    (hmem : target ∉ r.game_versions)
    (hm : mergeVersions target r.game_versions = .ok newList) :
    stepRelease target patchOk st r =
      .ok { total := st.total + (if patchOk st.calls.length then 1 else 0),
            calls := st.calls ++ [(r.id, newList, patchOk st.calls.length)],
            fetches := st.fetches } := by
  unfold stepRelease
  rw [if_neg hmem, hm]

theorem stepRelease_ok (target : String) (patchOk : Nat → Bool)
    (st : LoopState) (r : Release)
    (hmerge : (mergeVersions target r.game_versions).isOk = true) :
    ∃ st', stepRelease target patchOk st r = .ok st' := by
  unfold stepRelease
  by_cases hmem : target ∈ r.game_versions
  · rw [if_pos hmem]
    exact ⟨st, rfl⟩
  · rw [if_neg hmem]
    rcases hmv : mergeVersions target r.game_versions with e | M
    · rw [hmv] at hmerge
      simp [Except.isOk, Except.toBool] at hmerge
    · exact ⟨_, rfl⟩

theorem stepRelease_rel (target : String) (p q : Nat → Bool) {s t : LoopState}
    (r : Release) (hR : CallsAgree s t) :
    (stepRelease target p s r = .error () ∧ stepRelease target q t r = .error ()) ∨
    ∃ s' t', stepRelease target p s r = .ok s' ∧ stepRelease target q t r = .ok t' ∧
      CallsAgree s' t' := by
  unfold stepRelease
  by_cases hmem : target ∈ r.game_versions
  · rw [if_pos hmem, if_pos hmem]
    right
    exact ⟨s, t, rfl, rfl, hR⟩
  · rw [if_neg hmem, if_neg hmem]
    rcases hm : mergeVersions target r.game_versions with e | nl
    · left
      cases e
      exact ⟨rfl, rfl⟩
    · right
      refine ⟨_, _, rfl, rfl, ?_, hR.2⟩
      simp only [List.map_append, List.map_cons, List.map_nil]
      rw [hR.1]

theorem stepProject_rel (target : String)
    (rawFetch : String → Except Unit (List Release)) (p q : Nat → Bool)
    {s t : LoopState} (proj : String × List String) (hR : CallsAgree s t) :
    (stepProject target rawFetch p s proj = .error () ∧
     stepProject target rawFetch q t proj = .error ()) ∨
    ∃ s' t', stepProject target rawFetch p s proj = .ok s' ∧
      stepProject target rawFetch q t proj = .ok t' ∧ CallsAgree s' t' := by
  unfold stepProject
  have hR1 : CallsAgree { s with fetches := s.fetches ++ [proj.1] }
      { t with fetches := t.fetches ++ [proj.1] } := ⟨hR.1, by rw [hR.2]⟩
  by_cases hrs : get_project_versions (rawFetch proj.1) = []
  · rw [if_pos hrs, if_pos hrs]
    right
    exact ⟨_, _, rfl, rfl, hR1⟩
  · rw [if_neg hrs, if_neg hrs]
    exact foldlM_except_rel CallsAgree _ _
      (fun _ _ a h => stepRelease_rel target p q a h) _ _ _ hR1

theorem stepProject_ok (target : String)
    (rawFetch : String → Except Unit (List Release)) (patchOk : Nat → Bool)
    (st : LoopState) (proj : String × List String)
    (hcomp : ∀ r ∈ get_project_versions (rawFetch proj.1),
      (mergeVersions target r.game_versions).isOk = true) :
    ∃ st', stepProject target rawFetch patchOk st proj = .ok st' := by
  unfold stepProject
  by_cases hrs : get_project_versions (rawFetch proj.1) = []
  · rw [if_pos hrs]
    exact ⟨_, rfl⟩
  · rw [if_neg hrs]
    apply foldlM_except_ok
    intro s r hr
    exact stepRelease_ok target patchOk s r (hcomp r (List.mem_of_mem_filter hr))

theorem runProjectsFrom_ok (target : String)
    (rawFetch : String → Except Unit (List Release)) (patchOk : Nat → Bool)
    (projects : List (String × List String)) (st : LoopState)
    (hcomp : ∀ proj ∈ projects, ∀ r ∈ get_project_versions (rawFetch proj.1),
      (mergeVersions target r.game_versions).isOk = true) :
    ∃ st', runProjectsFrom target rawFetch patchOk st projects = .ok st' := by
  apply foldlM_except_ok
  intro s proj hproj
  exact stepProject_ok target rawFetch patchOk s proj (hcomp proj hproj)

theorem runProjectsFrom_rel (target : String)
    (rawFetch : String → Except Unit (List Release)) (p q : Nat → Bool)
    (projects : List (String × List String)) {s t : LoopState}
    (hR : CallsAgree s t) :
    (runProjectsFrom target rawFetch p s projects = .error () ∧
     runProjectsFrom target rawFetch q t projects = .error ()) ∨
    ∃ s' t', runProjectsFrom target rawFetch p s projects = .ok s' ∧
      runProjectsFrom target rawFetch q t projects = .ok t' ∧ CallsAgree s' t' :=
  foldlM_except_rel CallsAgree _ _
    (fun _ _ a h => stepProject_rel target rawFetch p q a h) projects s t hR

/-! ### Unfolding `runMain` branch by branch -/

theorem runMain_fatal_argv (argv : List String) (token : Option String)
    (config : Except ConfigErr (List (String × List String)))
    (rawFetch : String → Except Unit (List Release)) (patchOk : Nat → Bool)
    (h : argv.length < 2) :
    runMain argv token config rawFetch patchOk = .ok (fatalRes msgNoArg) := by
  unfold runMain
  rw [if_pos h]

theorem runMain_fatal_token (argv : List String) (token : Option String)
    (config : Except ConfigErr (List (String × List String)))
    (rawFetch : String → Except Unit (List Release)) (patchOk : Nat → Bool)
    (hargv : ¬ argv.length < 2) (htok : tokenMissing token = true) :
    runMain argv token config rawFetch patchOk = .ok (fatalRes msgNoToken) := by
  unfold runMain
  rw [if_neg hargv, if_pos htok]

theorem runMain_fatal_notFound (argv : List String) (token : Option String)
    (rawFetch : String → Except Unit (List Release)) (patchOk : Nat → Bool)
    (hargv : ¬ argv.length < 2) (htok : tokenMissing token = false) :
    runMain argv token (.error .notFound) rawFetch patchOk =
      .ok (fatalRes msgNoConfigFile) := by
  unfold runMain
  rw [if_neg hargv, if_neg (by rw [htok]; exact Bool.false_ne_true)]

theorem runMain_fatal_badJson (argv : List String) (token : Option String)
    (rawFetch : String → Except Unit (List Release)) (patchOk : Nat → Bool)
    (hargv : ¬ argv.length < 2) (htok : tokenMissing token = false) :
    runMain argv token (.error .badJson) rawFetch patchOk =
      .ok (fatalRes msgBadJson) := by
  unfold runMain
  rw [if_neg hargv, if_neg (by rw [htok]; exact Bool.false_ne_true)]

theorem runMain_config_ok (argv : List String) (token : Option String)
    (projects : List (String × List String))
    (rawFetch : String → Except Unit (List Release)) (patchOk : Nat → Bool)
    (hargv : ¬ argv.length < 2) (htok : tokenMissing token = false) :
    runMain argv token (.ok projects) rawFetch patchOk =
      runMainLoop (argv.getD 1 "") rawFetch patchOk projects := by
  unfold runMain
  rw [if_neg hargv, if_neg (by rw [htok]; exact Bool.false_ne_true)]

theorem runMainLoop_eq_loop (target : String)
    (rawFetch : String → Except Unit (List Release)) (patchOk : Nat → Bool)
    (projects : List (String × List String)) (hne : ¬ projects.isEmpty = true) :
    runMainLoop target rawFetch patchOk projects =
      match runProjectsFrom target rawFetch patchOk ⟨0, [], []⟩ projects with
      | .error e => .error e
      | .ok st => .ok { exitCode := 0, message := msgDone, fetches := st.fetches,
                        patches := st.calls, totalUpdated := st.total } := by
  unfold runMainLoop
  rw [if_neg hne]

theorem runMainLoop_empty (target : String)
    (rawFetch : String → Except Unit (List Release)) (patchOk : Nat → Bool)
    (projects : List (String × List String)) (h : projects.isEmpty = true) :
    runMainLoop target rawFetch patchOk projects =
      .ok { exitCode := 0, message := msgEmptyConfig, fetches := [],
            patches := [], totalUpdated := 0 } := by
  unfold runMainLoop
  rw [if_pos h]

/-! ### The claims -/

/-- C1: for every release that gets patched (the target version was absent and
the PATCH call is issued), the merged list handed to the PATCH is a superset
of the release's prior `game_versions`, contains the target exactly once, has
no duplicates, and is ordered ascending by `version_key`. -/
theorem stepRelease_merged_list_invariants (target : String) (patchOk : Nat → Bool)
    (st st' : LoopState) (r : Release)
    (hmem : target ∉ r.game_versions)
    (h : stepRelease target patchOk st r = .ok st') :
    ∃ M, st'.calls = st.calls ++ [(r.id, M, patchOk st.calls.length)] ∧
      (∀ v ∈ r.game_versions, v ∈ M) ∧
      M.count target = 1 ∧ M.Nodup ∧
      M.Pairwise (fun a b => vle a b = true) := by
  unfold stepRelease at h
  rw [if_neg hmem] at h
  rcases hm : mergeVersions target r.game_versions with e | M
  · rw [hm] at h
    cases h
  · rw [hm] at h
    refine ⟨M, ?_, mergeVersions_superset hm, mergeVersions_count_target hm,
      mergeVersions_nodup hm, mergeVersions_sorted hm⟩
    rw [← Except.ok.inj h]

/-- Witness for C1: patching the release `1.0.0` of the spec's end-to-end
scenario, with current list `["1.19.4"]` and target `"1.20.1"`. -/
theorem stepRelease_merged_list_invariants_witness :
    ∃ M : List String, (∀ v ∈ (["1.19.4"] : List String), v ∈ M) ∧
      M.count "1.20.1" = 1 ∧ M.Nodup := by
  obtain ⟨M, _, hsup, hcount, hnodup, _⟩ :=
    stepRelease_merged_list_invariants "1.20.1" (fun _ => true) ⟨0, [], []⟩
      ⟨1, [("vid1", ["1.19.4", "1.20.1"], true)], []⟩
      ⟨"vid1", "A", "1.0.0", ["1.19.4"]⟩ (by decide) (by decide)
  exact ⟨M, hsup, hcount, hnodup⟩

/-- C2: `version_key` compares numeric runs as integers, not lexically:
the keys of `"1.21.9"` and `"1.21.10"` are computed successfully and the
first orders strictly before the second, likewise `"1.21"` before
`"1.21.1"`. -/
theorem version_key_numeric_run_order :
    version_key "1.21.9" = .ok [.num 1, .num 21, .num 9] ∧
    version_key "1.21.10" = .ok [.num 1, .num 21, .num 10] ∧
    version_key "1.21" = .ok [.num 1, .num 21] ∧
    version_key "1.21.1" = .ok [.num 1, .num 21, .num 1] ∧
    keyCmp [Tok.num 1, .num 21, .num 9] [.num 1, .num 21, .num 10] = .ok .lt ∧
    keyCmp [Tok.num 1, .num 21] [.num 1, .num 21, .num 1] = .ok .lt := by
  decide

/-- C3: a selected release whose current `game_versions` already contains the
target version is skipped: the loop state is returned unchanged, so no PATCH
call is recorded for it and the remote list is untouched. -/
theorem stepRelease_skips_when_target_present (target : String)
    (patchOk : Nat → Bool) (st : LoopState) (r : Release)
    (h : target ∈ r.game_versions) :
    stepRelease target patchOk st r = .ok st := by
  unfold stepRelease
  rw [if_pos h]

/-- Witness for C3: a release already supporting the target version. -/
theorem stepRelease_skips_when_target_present_witness :
    stepRelease "1.19.4" (fun _ => true) ⟨0, [], []⟩
      ⟨"vid1", "A", "1.0.0", ["1.19.4"]⟩ = .ok ⟨0, [], []⟩ :=
  stepRelease_skips_when_target_present "1.19.4" (fun _ => true) ⟨0, [], []⟩
    ⟨"vid1", "A", "1.0.0", ["1.19.4"]⟩ (by decide)

/-- C4 counterexample: startup validation passes (argument, token and config
all present and well-formed) yet the process does not finish with exit code
0: the fetched release supports `"1.21.9"` and the target is `"1.21-rc1"`,
so the merge's sort compares an `int` token with a `str` token and raises an
uncaught `TypeError`; the run dies instead of reporting a summary. -/
theorem runMain_crash_after_startup :
    runMain ["main.py", "1.21-rc1"] (some "tok")
      (.ok [("modA", [("1.0.0" : String)])])
      (fun _ => .ok [⟨"vid1", "A", "1.0.0", ["1.21.9"]⟩])
      (fun _ => true) = .error () := by
  decide

/-- C4 amended: a failed PATCH is non-fatal — it is not counted, the calls
issued (ids and payloads) do not depend on the PATCH outcomes, and the
reported total equals exactly the number of PATCH calls that returned
success; and provided the merge's sort itself cannot raise (target and all
fetched version labels ASCII, every merged pool's keys pairwise comparable —
the uncaught `TypeError`/`ValueError` from the sort being the one post-startup
crash, per the counterexample), the run always finishes with exit code 0
whatever the PATCH outcomes are. -/
theorem run_patch_failures_nonfatal (argv : List String) (token : Option String)
    (projects : List (String × List String))
    (rawFetch : String → Except Unit (List Release)) (patchOk : Nat → Bool)
    (hargv : 2 ≤ argv.length) (htok : tokenMissing token = false)
    (htarget : AsciiStr (argv.getD 1 "") = true)
    (hcomp : ∀ proj ∈ projects, ∀ r ∈ get_project_versions (rawFetch proj.1),
      (∀ v ∈ r.game_versions, AsciiStr v = true) ∧
      pairwiseComparableB (dedupFirst (r.game_versions ++ [argv.getD 1 ""])) = true) :
    (∃ res, runMain argv token (.ok projects) rawFetch patchOk = .ok res) ∧
    (∀ res, runMain argv token (.ok projects) rawFetch patchOk = .ok res →
      res.exitCode = 0 ∧
      res.totalUpdated = (res.patches.filter (fun c => c.2.2)).length ∧
      ∀ patchOk2, ∃ res2,
        runMain argv token (.ok projects) rawFetch patchOk2 = .ok res2 ∧
        res2.patches.map (fun c => (c.1, c.2.1)) =
          res.patches.map (fun c => (c.1, c.2.1))) := by
  have hargv' : ¬ argv.length < 2 := by omega
  have hcomp' : ∀ proj ∈ projects, ∀ r ∈ get_project_versions (rawFetch proj.1),
      (mergeVersions (argv.getD 1 "") r.game_versions).isOk = true := by
    intro proj hp r hr
    exact mergeVersions_isOk_of_ascii htarget (hcomp proj hp r hr).1
      (hcomp proj hp r hr).2
  have hmain : ∀ po : Nat → Bool, runMain argv token (.ok projects) rawFetch po =
      runMainLoop (argv.getD 1 "") rawFetch po projects :=
    fun po => runMain_config_ok argv token projects rawFetch po hargv' htok
  by_cases hne : projects.isEmpty = true
  · constructor
    · exact ⟨_, by rw [hmain patchOk, runMainLoop_empty _ _ _ _ hne]⟩
    · intro res hres
      rw [hmain patchOk, runMainLoop_empty _ _ _ _ hne] at hres
      have hr := Except.ok.inj hres
      refine ⟨by rw [← hr], by rw [← hr]; rfl, ?_⟩
      intro patchOk2
      refine ⟨_, by rw [hmain patchOk2, runMainLoop_empty _ _ _ _ hne], ?_⟩
      rw [← hr]
  · obtain ⟨st', hst'⟩ := runProjectsFrom_ok (argv.getD 1 "") rawFetch patchOk
      projects ⟨0, [], []⟩ hcomp'
    have hloop := runMainLoop_eq_loop (argv.getD 1 "") rawFetch patchOk projects hne
    constructor
    · exact ⟨_, by rw [hmain patchOk, hloop, hst']⟩
    · intro res hres
      rw [hmain patchOk, hloop, hst'] at hres
      have hr := Except.ok.inj hres
      refine ⟨by rw [← hr], ?_, ?_⟩
      · have hci : CountInv st' :=
          runProjectsFrom_count_inv (argv.getD 1 "") rawFetch patchOk
            (show CountInv ⟨0, [], []⟩ from rfl) hst'
        rw [← hr]
        exact hci
      · intro patchOk2
        have hrel := runProjectsFrom_rel (argv.getD 1 "") rawFetch patchOk patchOk2
          projects (s := ⟨0, [], []⟩) (t := ⟨0, [], []⟩) ⟨rfl, rfl⟩
        rcases hrel with ⟨he, _⟩ | ⟨s1, t1, h1, h2, hag⟩
        · rw [hst'] at he
          cases he
        · rw [hst'] at h1
          have hs1 : st' = s1 := Except.ok.inj h1
          refine ⟨⟨0, msgDone, t1.fetches, t1.calls, t1.total⟩, ?_, ?_⟩
          · rw [hmain patchOk2, runMainLoop_eq_loop _ _ _ _ hne, h2]
          · rw [← hr]
            calc t1.calls.map (fun c => (c.1, c.2.1))
                = s1.calls.map (fun c => (c.1, c.2.1)) := hag.1.symm
              _ = st'.calls.map (fun c => (c.1, c.2.1)) := by rw [hs1]

/-- Witness for C4: the end-to-end scenario with a failing PATCH: the run
still returns exit code 0 and reports 0 updates. -/
theorem run_patch_failures_nonfatal_witness :
    ∃ res, runMain ["main.py", "1.20.1"] (some "tok")
        (.ok [("modA", [("1.0.0" : String)])])
        (fun _ => .ok [⟨"vid1", "A", "1.0.0", ["1.19.4"]⟩])
        (fun _ => false) = .ok res ∧ res.exitCode = 0 ∧
      res.totalUpdated = (res.patches.filter (fun c => c.2.2)).length := by
  obtain ⟨⟨res, hres⟩, hall⟩ :=
    run_patch_failures_nonfatal ["main.py", "1.20.1"] (some "tok")
      [("modA", [("1.0.0" : String)])]
      (fun _ => .ok [⟨"vid1", "A", "1.0.0", ["1.19.4"]⟩])
      (fun _ => false) (by decide) (by decide) (by decide) (by decide)
  obtain ⟨h0, h1, _⟩ := hall res hres
  exact ⟨res, hres, h0, h1⟩

/-- C5 counterexample: `version_key` is not total over arbitrary strings:
on `"²"` (superscript two) `str.isdigit()` is true, so the token is handed
to `int()`, which raises `ValueError`; the key computation fails instead of
returning a token sequence. -/
theorem version_key_superscript_fails :
    version_key "²" = .error () := by
  decide

/-- C5 amended: for every all-ASCII string — where `isdigit` accepts exactly
the decimal digits `0-9`, so `int()` cannot raise — `version_key` succeeds
and returns exactly the sequence described by the spec: split on `.` and
`-`, all-digit tokens become integers, every other token stays a string
(`specVersionKey`, modelled from the spec's words). -/
theorem version_key_total_matches_spec (v : String) (h : AsciiStr v = true) :
    version_key v = .ok (specVersionKey v) := by
  rw [version_key_ok_of_ascii h]
  unfold specVersionKey specSplit
  rw [← splitSeps_eq_scan]

/-- Witness for the amended C5 at a mixed numeric/text label. -/
theorem version_key_total_matches_spec_witness :
    version_key "1.21-rc1" = .ok (specVersionKey "1.21-rc1") :=
  version_key_total_matches_spec "1.21-rc1" (by decide)

/-- C6: the merge-and-sort step is idempotent: merging the target into the
result of a successful merge returns that result unchanged. -/
theorem mergeVersions_idempotent (target : String) (cur M : List String)
    (h : mergeVersions target cur = .ok M) :
    mergeVersions target M = .ok M :=
  mergeVersions_idem_aux h

/-- Witness for C6 at the end-to-end scenario's merge. -/
theorem mergeVersions_idempotent_witness :
    mergeVersions "1.20.1" ["1.19.4", "1.20.1"] = .ok ["1.19.4", "1.20.1"] :=
  mergeVersions_idempotent "1.20.1" ["1.19.4"] ["1.19.4", "1.20.1"] (by decide)

/-- C7: a failed GET for a project yields the empty release list
(`get_project_versions` maps any `RequestException` to `[]`), the project is
skipped with the loop state otherwise unchanged (only the GET is recorded),
and the run continues with exactly the remaining projects. -/
theorem fetch_failure_isolated (target : String)
    (rawFetch : String → Except Unit (List Release)) (patchOk : Nat → Bool)
    (st : LoopState) (slug : String) (labels : List String)
    (rest : List (String × List String))
    (h : rawFetch slug = .error ()) :
    get_project_versions (rawFetch slug) = [] ∧
    stepProject target rawFetch patchOk st (slug, labels) =
      .ok { st with fetches := st.fetches ++ [slug] } ∧
    runProjectsFrom target rawFetch patchOk st ((slug, labels) :: rest) =
      runProjectsFrom target rawFetch patchOk
        { st with fetches := st.fetches ++ [slug] } rest := by
  have h1 : get_project_versions (rawFetch slug) = [] := by
    rw [h]
    rfl
  have h2 : stepProject target rawFetch patchOk st (slug, labels) =
      .ok { st with fetches := st.fetches ++ [slug] } := by
    unfold stepProject
    rw [if_pos (h1 : get_project_versions (rawFetch (slug, labels).1) = [])]
  refine ⟨h1, h2, ?_⟩
  show ((slug, labels) :: rest).foldlM (stepProject target rawFetch patchOk) st = _
  rw [List.foldlM_cons, h2]
  rfl

/-- Witness for C7: a project whose GET fails contributes nothing but its
recorded fetch. -/
theorem fetch_failure_isolated_witness :
    stepProject "1.20.1" (fun _ => .error ()) (fun _ => true) ⟨0, [], []⟩
      ("bad", ["1.0"]) = .ok ⟨0, [], ["bad"]⟩ :=
  (fetch_failure_isolated "1.20.1" (fun _ => .error ()) (fun _ => true)
    ⟨0, [], []⟩ "bad" ["1.0"] [] rfl).2.1

/-- C8: each fatal startup condition (missing CLI argument, missing or empty
token, missing config file, malformed config JSON) produces its own distinct
error message and exits with code 1 before any GET or PATCH is attempted
(the result records no fetches and no patches). -/
theorem startup_fatal_distinct_messages (argv : List String) (token : Option String)
    (config : Except ConfigErr (List (String × List String)))
    (rawFetch : String → Except Unit (List Release)) (patchOk : Nat → Bool) :
    (argv.length < 2 →
      runMain argv token config rawFetch patchOk = .ok (fatalRes msgNoArg)) ∧
    (¬ argv.length < 2 → tokenMissing token = true →
      runMain argv token config rawFetch patchOk = .ok (fatalRes msgNoToken)) ∧
    (¬ argv.length < 2 → tokenMissing token = false → config = .error .notFound →
      runMain argv token config rawFetch patchOk = .ok (fatalRes msgNoConfigFile)) ∧
    (¬ argv.length < 2 → tokenMissing token = false → config = .error .badJson →
      runMain argv token config rawFetch patchOk = .ok (fatalRes msgBadJson)) ∧
    [msgNoArg, msgNoToken, msgNoConfigFile, msgBadJson].Nodup ∧
    ∀ m : String, (fatalRes m).exitCode = 1 ∧ (fatalRes m).fetches = [] ∧
      (fatalRes m).patches = [] := by
  refine ⟨?_, ?_, ?_, ?_, by decide, fun m => ⟨rfl, rfl, rfl⟩⟩
  · exact fun h => runMain_fatal_argv argv token config rawFetch patchOk h
  · exact fun h1 h2 => runMain_fatal_token argv token config rawFetch patchOk h1 h2
  · intro h1 h2 h3
    rw [h3]
    exact runMain_fatal_notFound argv token rawFetch patchOk h1 h2
  · intro h1 h2 h3
    rw [h3]
    exact runMain_fatal_badJson argv token rawFetch patchOk h1 h2

/-- Witness for C8: a run with no CLI argument exits with the usage error. -/
theorem startup_fatal_distinct_messages_witness :
    runMain ["main.py"] none (.ok []) (fun _ => .ok []) (fun _ => true) =
      .ok (fatalRes msgNoArg) :=
  (startup_fatal_distinct_messages ["main.py"] none (.ok [])
    (fun _ => .ok []) (fun _ => true)).1 (by decide)

/-- C9: exactly the releases whose `version_number` is in the project's
configured label list are selected; with releases labeled
`["1.0", "1.1", "2.0"]` and configured labels `["1.0", "2.0"]` precisely the
two matching releases are selected and `"1.1"` is not. -/
theorem selectReleases_exactly_matching :
    (∀ (labels : List String) (rs : List Release) (r : Release),
      r ∈ selectReleases labels rs ↔ r ∈ rs ∧ r.version_number ∈ labels) ∧
    selectReleases ["1.0", "2.0"]
        [⟨"a", "A", "1.0", []⟩, ⟨"b", "B", "1.1", []⟩, ⟨"c", "C", "2.0", []⟩] =
      [⟨"a", "A", "1.0", []⟩, ⟨"c", "C", "2.0", []⟩] := by
  constructor
  · intro labels rs r
    unfold selectReleases
    simp [List.mem_filter]
  · decide

/-- C10 counterexample: the merge-and-sort step is not total: with current
list `["1.21.9"]` and target `"1.21-rc1"` the keys pair the integer token `9`
with the string token `"rc1"` at the same position and the sort raises
(`TypeError` in CPython), modelled as `.error ()`. -/
theorem mergeVersions_hetero_fails :
    mergeVersions "1.21-rc1" ["1.21.9"] = .error () := by
  decide

/-- C10 amended: for all-ASCII labels — where the key computation itself
cannot raise — the merge-and-sort step succeeds exactly when the version
keys of the merged pool are pairwise comparable, and then returns a sorted
permutation of the deduplicated union; when an integer token meets a string
token at the same position after an equal prefix (keys not pairwise
comparable), it fails instead of returning a list. -/
theorem mergeVersions_total_on_comparable (target : String) (cur : List String)
    (hta : AsciiStr target = true) (hcur : ∀ v ∈ cur, AsciiStr v = true) :
    (pairwiseComparableB (dedupFirst (cur ++ [target])) = true →
      ∃ M, mergeVersions target cur = .ok M ∧
        List.Perm M (dedupFirst (cur ++ [target])) ∧
        M.Pairwise (fun a b => vle a b = true)) ∧
    (pairwiseComparableB (dedupFirst (cur ++ [target])) = false →
      mergeVersions target cur = .error ()) := by
  constructor
  · intro hcomp
    have hok := mergeVersions_isOk_of_ascii hta hcur hcomp
    rcases hm : mergeVersions target cur with e | M
    · rw [hm] at hok
      simp [Except.isOk, Except.toBool] at hok
    · exact ⟨M, rfl, (mergeVersions_ok hm).1, mergeVersions_sorted hm⟩
  · intro hcomp
    unfold mergeVersions
    by_cases hk : poolKeysOk (dedupFirst (cur ++ [target])) = true
    · rw [if_pos hk, if_neg (by rw [hcomp]; exact Bool.false_ne_true)]
    · rw [if_neg hk]

/-- Witness for the amended C10: a homogeneous pool merges successfully into
a sorted list. -/
theorem mergeVersions_total_on_comparable_witness :
    ∃ M, mergeVersions "1.21.9" ["1.21.10", "1.21"] = .ok M ∧
      M.Pairwise (fun a b => vle a b = true) := by
  obtain ⟨M, hok, _, hsort⟩ :=
    (mergeVersions_total_on_comparable "1.21.9" ["1.21.10", "1.21"]
      (by decide) (by decide)).1 (by decide)
  exact ⟨M, hok, hsort⟩
